import Mathlib

/-!
Verification of the tendermint mempool tracing schema, the rpc tx query
endpoints, and the spec's transaction dissemination protocol, via a shallow
embedding of the Go sources in Lean 4.
-/

/-! ## Trace schema embedding (src/pkg/trace/schema/mempool.go) -/

/-- A value stored in a trace-point field map: either a string or a number
(`map[string]interface{}` in the source, restricted to the value shapes the
mempool schema actually stores). -/
inductive FieldValue
  | s (v : String)
  | n (v : Nat)
deriving DecidableEq

/-- A single trace point: the table (measurement) it is written to plus its
field map, as passed to `client.WritePoint(table, fields)`. -/
structure TracePoint where
  table : String
  fields : List (String × FieldValue)
deriving DecidableEq

/-- A trace client, characterised by the set of tables it is collecting.
`WritePoint` appends to a write-only sink, so a call to one of the schema
write functions is fully described by the list of points it emits. -/
structure TraceClient where
  collecting : List String
deriving DecidableEq

/-- `client.IsCollecting(table)` from pkg/trace: whether the client collects
the given table. -/
def IsCollecting (c : TraceClient) (table : String) : Bool :=
  c.collecting.contains table

/-- `MempoolTxTable = "mempool_tx"` (mempool.go line 25). -/
def MempoolTxTable : String := "mempool_tx"

/-- `TxFieldKey = "tx"` (mempool.go line 29). -/
def TxFieldKey : String := "tx"

/-- `SizeFieldKey = "size"` (mempool.go line 33). -/
def SizeFieldKey : String := "size"

/-- `VersionFieldKey = "version"` (mempool.go line 37). -/
def VersionFieldKey : String := "version"

/-- `V1VersionFieldValue = "v1"` (mempool.go line 41). -/
def V1VersionFieldValue : String := "v1"

/-- `CatVersionFieldValue = "cat"` (mempool.go line 45). -/
def CatVersionFieldValue : String := "cat"

/-- `MempoolPeerStateTable = "mempool_peer_state"` (mempool.go line 75). -/
def MempoolPeerStateTable : String := "mempool_peer_state"

/-- `StateUpdateFieldKey = "update"` (mempool.go line 78). -/
def StateUpdateFieldKey : String := "update"

/-- `SeenTxStateUpdateFieldValue = "seen_tx"` (mempool.go line 82). -/
def SeenTxStateUpdateFieldValue : String := "seen_tx"

/-- `WantTxStateUpdateFieldValue = "want_tx"` (mempool.go line 86). -/
def WantTxStateUpdateFieldValue : String := "want_tx"

/-- `RemovedTxStateUpdateFieldValue = "removed_tx"` (mempool.go line 91). -/
def RemovedTxStateUpdateFieldValue : String := "removed_tx"

/-- `AddedTxStateUpdateFieldValue = "added_tx"` (mempool.go line 95). -/
def AddedTxStateUpdateFieldValue : String := "added_tx"

/-- Modelled from the spec: `PeerFieldKey` is defined in the tracing schema
package outside the given sources; it is the field key tagging the peer
identity of an event. -/
def PeerFieldKey : String := "peer"

/-- Modelled from the spec: `TransferTypeFieldKey` is defined in the tracing
schema package outside the given sources; it is the field key distinguishing
upload from download events. -/
def TransferTypeFieldKey : String := "transfer_type"

/-- Modelled from the spec: `RoundStateTable` is the consensus round-state
table name, defined in the consensus part of the tracing schema outside the
given sources. Its exact string only matters in that it differs from the two
mempool table names. -/
def RoundStateTable : String := "consensus_round_state"

/-- `MempoolTables` (mempool.go lines 11-16): the list of tables for mempool
tracing. -/
def MempoolTables : List String :=
  [MempoolTxTable, MempoolPeerStateTable]

/-- Upper-case hex digit of a value below 16, as produced by the Go
`bytes.HexBytes.String()` rendering. -/
def hexDigitChar (n : Nat) : Char :=
  if n < 10 then Char.ofNat (48 + n) else Char.ofNat (55 + n)

/-- Two upper-case hex digits of one byte. -/
def byteToHex (b : Nat) : List Char :=
  [hexDigitChar ((b % 256) / 16), hexDigitChar (b % 16)]

/-- `bytes.HexBytes.String()`: the upper-case hex string of a byte slice. -/
def hexBytesString (bs : List Nat) : String :=
  String.mk (bs.foldr (fun b acc => byteToHex b ++ acc) [])

/-- `WriteMempoolTx` (mempool.go lines 53-66), with `types.Tx(tx).Hash()`
abstracted as the `digest` parameter (the digest function lives outside the
given sources). Returns the list of points emitted to the sink. -/
def WriteMempoolTx (digest : List Nat → List Nat) (client : TraceClient)
    (peer : String) (tx : List Nat) (transferType version : String) :
    List TracePoint :=
  if !(IsCollecting client MempoolTxTable) then []
  else
    [{ table := MempoolTxTable,
       fields :=
         [(TxFieldKey, FieldValue.s (hexBytesString (digest tx))),
          (PeerFieldKey, FieldValue.s peer),
          (SizeFieldKey, FieldValue.n tx.length),
          (TransferTypeFieldKey, FieldValue.s transferType),
          (VersionFieldKey, FieldValue.s version)] }]

/-- `WriteMempoolPeerState` (mempool.go lines 103-115). Note that the source
body checks and writes `RoundStateTable`, not `MempoolPeerStateTable`. -/
def WriteMempoolPeerState (client : TraceClient) (peer : String)
    (stateUpdate transferType version : String) : List TracePoint :=
  if !(IsCollecting client RoundStateTable) then []
  else
    [{ table := RoundStateTable,
       fields :=
         [(PeerFieldKey, FieldValue.s peer),
          (TransferTypeFieldKey, FieldValue.s transferType),
          (StateUpdateFieldKey, FieldValue.s stateUpdate),
          (VersionFieldKey, FieldValue.s version)] }]

/-- Look a field key up in a trace point's field map. -/
def lookupField (fs : List (String × FieldValue)) (k : String) :
    Option FieldValue :=
  (fs.find? (fun f => f.1 == k)).map (fun f => f.2)

/-- A client collecting exactly the mempool peer-state table. -/
def peerStateOnlyClient : TraceClient :=
  { collecting := [MempoolPeerStateTable] }

/-- A client collecting exactly the consensus round-state table. -/
def roundStateOnlyClient : TraceClient :=
  { collecting := [RoundStateTable] }

/-- A client collecting exactly the mempool tx table. -/
def mempoolTxOnlyClient : TraceClient :=
  { collecting := [MempoolTxTable] }

/-- A client collecting nothing. -/
def silentClient : TraceClient :=
  { collecting := [] }

/-- A node's world while a trace write runs: the write-only trace sink plus
all remaining (non-sink) state, of arbitrary type. -/
structure TraceWorld (σ : Type) where
  sink : List TracePoint
  rest : σ

/-- Running `WriteMempoolTx` over the world: the Go function returns nothing
and its body consists solely of the `IsCollecting` guard and the `WritePoint`
call, so its whole effect is appending the emitted points to the sink. -/
def runWriteMempoolTx {σ : Type} (digest : List Nat → List Nat)
    (client : TraceClient) (peer : String) (tx : List Nat)
    (transferType version : String) (w : TraceWorld σ) :
    Unit × TraceWorld σ :=
  ((), { w with
          sink := w.sink ++ WriteMempoolTx digest client peer tx transferType version })

/-- Running `WriteMempoolPeerState` over the world, as for
`runWriteMempoolTx`. -/
def runWriteMempoolPeerState {σ : Type} (client : TraceClient) (peer : String)
    (stateUpdate transferType version : String) (w : TraceWorld σ) :
    Unit × TraceWorld σ :=
  ((), { w with
          sink := w.sink ++
            WriteMempoolPeerState client peer stateUpdate transferType version })

/-! ## RPC tx endpoints (src/rpc/core/tx.go and src/unnamed/part_000) -/

/-- A record returned by the transaction indexer for one transaction
(`abci.TxResult`): its height, its index within the block, the execution
result (abstracted to an opaque tag, as the endpoints only copy it), and the
raw transaction bytes. -/
structure TxLookupRecord where
  height : Int
  index : Nat
  result : Nat
  tx : List Nat
deriving DecidableEq

/-- Modelled from the spec: `types.ShareProof` is defined outside the given
sources and the endpoints only pass it through, so it is abstracted to an
opaque tag. -/
abbrev ShareProofData := Nat

/-- The Go zero value of a `types.ShareProof` (`var shareProof
types.ShareProof`). -/
def zeroShareProof : ShareProofData := 0

/-- The rpc environment (`GetEnvironment()`), reduced to the collaborator
interfaces `Tx` and `TxSearch` actually consult: whether the indexer is the
null indexer, the indexer lookup `TxIndexer.Get`, the query parser
`query.New`, the indexer search `TxIndexer.Search`, the proof generator
`proveTx` (whose body only talks to the block store and the proxy app, both
collaborators), and the transaction digest `types.Tx.Hash`. -/
structure Env where
  txIndexerIsNull : Bool
  txIndexerGet : List Nat → Except String (Option TxLookupRecord)
  parseQuery : String → Except String String
  txIndexerSearch : String → Except String (List TxLookupRecord)
  proveTxFn : Int → Nat → Except String ShareProofData
  txHash : List Nat → List Nat

/-- `ctypes.ResultTx`. -/
structure ResultTx where
  hash : List Nat
  height : Int
  index : Nat
  txResult : Nat
  tx : List Nat
  proof : ShareProofData
deriving DecidableEq

/-- `ctypes.ResultTxSearch`. -/
structure ResultTxSearch where
  txs : List ResultTx
  totalCount : Int
deriving DecidableEq

/-- Modelled from the spec: `maxQueryLength` is a package constant outside
the given sources; its value is immaterial to the claims. -/
def maxQueryLength : Nat := 512

/-- Modelled from the spec: `defaultPerPage` from the rpc core package,
outside the given sources. -/
def defaultPerPage : Int := 30

/-- Modelled from the spec: `maxPerPage` from the rpc core package, outside
the given sources. -/
def maxPerPage : Int := 100

/-- Modelled from the spec: `validatePerPage` from the rpc core package,
outside the given sources: a nil or non-positive per_page falls back to the
default, and values above the maximum are clamped to it. -/
def validatePerPage (perPagePtr : Option Int) : Int :=
  match perPagePtr with
  | none => defaultPerPage
  | some perPage =>
    if perPage < 1 then defaultPerPage
    else if maxPerPage < perPage then maxPerPage
    else perPage

/-- Modelled from the spec: `validatePage` from the rpc core package,
outside the given sources: a nil page means page 1, and a page outside
`1 ≤ page ≤ pages` is an error. Go integer division truncates toward zero,
hence `Int.div`. -/
def validatePage (pagePtr : Option Int) (perPage totalCount : Int) :
    Except String Int :=
  if perPage < 1 then Except.error "zero or negative perPage"
  else
    match pagePtr with
    | none => Except.ok 1
    | some page =>
      let pages := Int.tdiv (totalCount - 1) perPage + 1
      let pages := if pages == 0 then 1 else pages
      if page ≤ 0 || pages < page then
        Except.error "page should be within range"
      else Except.ok page

/-- Modelled from the spec: `validateSkipCount` from the rpc core package,
outside the given sources. -/
def validateSkipCount (page perPage : Int) : Int :=
  let skipCount := (page - 1) * perPage
  if skipCount < 0 then 0 else skipCount

/-- Insert an element into a list in front of the first entry it is strictly
less than, according to the given comparator. -/
def insertIn {α : Type} (less : α → α → Bool) (x : α) : List α → List α
  | [] => [x]
  | y :: ys => if less x y then x :: y :: ys else y :: insertIn less x ys

/-- `sort.Slice`: sort a list ascending by the given strict-less comparator
(insertion sort; `sort.Slice` promises a sorted permutation and nothing
about ties, so any sort realises it). -/
def sortSlice {α : Type} (less : α → α → Bool) (xs : List α) : List α :=
  xs.foldr (insertIn less) []

namespace rpcTm

/-- `Tx` (src/rpc/core/tx.go lines 24-59). -/
def Tx (env : Env) (hash : List Nat) (prove : Bool) : Except String ResultTx :=
  if env.txIndexerIsNull then Except.error "transaction indexing is disabled"
  else
    match env.txIndexerGet hash with
    | Except.error e => Except.error e
    | Except.ok none =>
        Except.error ("tx (" ++ hexBytesString hash ++ ") not found")
    | Except.ok (some r) =>
        match (if prove then env.proveTxFn r.height r.index
               else Except.ok zeroShareProof) with
        | Except.error e => Except.error e
        | Except.ok sp =>
            Except.ok { hash := hash, height := r.height, index := r.index,
                        txResult := r.result, tx := r.tx, proof := sp }

/-- The `desc` comparator of `sort.Slice` (src/rpc/core/tx.go lines
95-100). -/
def descLess (a b : TxLookupRecord) : Bool :=
  if a.height == b.height then decide (b.index < a.index)
  else decide (b.height < a.height)

/-- The `asc` comparator of `sort.Slice` (src/rpc/core/tx.go lines
102-107). -/
def ascLess (a b : TxLookupRecord) : Bool :=
  if a.height == b.height then decide (a.index < b.index)
  else decide (a.height < b.height)

/-- The result-building loop of `TxSearch` (src/rpc/core/tx.go lines
124-144), over the page slice of the sorted results. -/
def buildApiResults (env : Env) (prove : Bool) :
    List TxLookupRecord → Except String (List ResultTx)
  | [] => Except.ok []
  | r :: rest =>
    match (if prove then env.proveTxFn r.height r.index
           else Except.ok zeroShareProof) with
    | Except.error e => Except.error e
    | Except.ok sp =>
        match buildApiResults env prove rest with
        | Except.error e => Except.error e
        | Except.ok tl =>
            Except.ok ({ hash := env.txHash r.tx, height := r.height,
                         index := r.index, txResult := r.result, tx := r.tx,
                         proof := sp } :: tl)

/-- The pagination tail of `TxSearch` (src/rpc/core/tx.go lines 112-146): computing the page, slicing
the sorted results and building the api results. -/
def paginateResults (env : Env) (prove : Bool)
    (pagePtr perPagePtr : Option Int) (results : List TxLookupRecord) :
    Except String ResultTxSearch :=
  let totalCount : Int := results.length
  let perPage := validatePerPage perPagePtr
  match validatePage pagePtr perPage totalCount with
  | Except.error e => Except.error e
  | Except.ok page =>
    let skipCount := validateSkipCount page perPage
    let pageSize := min perPage (totalCount - skipCount)
    match buildApiResults env prove
        ((results.drop skipCount.toNat).take pageSize.toNat) with
    | Except.error e => Except.error e
    | Except.ok apiResults =>
        Except.ok { txs := apiResults, totalCount := totalCount }

/-- `TxSearch` (src/rpc/core/tx.go lines 66-147). The index loop
`skipCount ≤ i < skipCount+pageSize` is rendered as `drop`/`take` on the
sorted results, which covers exactly the same index range. -/
def TxSearch (env : Env) (query : String) (prove : Bool)
    (pagePtr perPagePtr : Option Int) (orderBy : String) :
    Except String ResultTxSearch :=
  if env.txIndexerIsNull then Except.error "transaction indexing is disabled"
  else if maxQueryLength < query.length then
    Except.error "maximum query length exceeded"
  else
    match env.parseQuery query with
    | Except.error e => Except.error e
    | Except.ok q =>
      match env.txIndexerSearch q with
      | Except.error e => Except.error e
      | Except.ok found =>
        match (if orderBy == "desc" then some (sortSlice descLess found)
               else if orderBy == "asc" || orderBy == "" then
                 some (sortSlice ascLess found)
               else none) with
        | none =>
            Except.error "expected order_by to be either asc or desc or empty"
        | some results =>
            paginateResults env prove pagePtr perPagePtr results

end rpcTm

namespace rpcCmt

/-- `Tx` (src/unnamed/part_000 lines 24-59). -/
def Tx (env : Env) (hash : List Nat) (prove : Bool) : Except String ResultTx :=
  if env.txIndexerIsNull then Except.error "transaction indexing is disabled"
  else
    match env.txIndexerGet hash with
    | Except.error e => Except.error e
    | Except.ok none =>
        Except.error ("tx (" ++ hexBytesString hash ++ ") not found")
    | Except.ok (some r) =>
        match (if prove then env.proveTxFn r.height r.index
               else Except.ok zeroShareProof) with
        | Except.error e => Except.error e
        | Except.ok sp =>
            Except.ok { hash := hash, height := r.height, index := r.index,
                        txResult := r.result, tx := r.tx, proof := sp }

/-- The `desc` comparator of `sort.Slice` (src/unnamed/part_000 lines
93-98). -/
def descLess (a b : TxLookupRecord) : Bool :=
  if a.height == b.height then decide (b.index < a.index)
  else decide (b.height < a.height)

/-- The `asc` comparator of `sort.Slice` (src/unnamed/part_000 lines
100-105). -/
def ascLess (a b : TxLookupRecord) : Bool :=
  if a.height == b.height then decide (a.index < b.index)
  else decide (a.height < b.height)

/-- The result-building loop of `TxSearch` (src/unnamed/part_000 lines
122-142). -/
def buildApiResults (env : Env) (prove : Bool) :
    List TxLookupRecord → Except String (List ResultTx)
  | [] => Except.ok []
  | r :: rest =>
    match (if prove then env.proveTxFn r.height r.index
           else Except.ok zeroShareProof) with
    | Except.error e => Except.error e
    | Except.ok sp =>
        match buildApiResults env prove rest with
        | Except.error e => Except.error e
        | Except.ok tl =>
            Except.ok ({ hash := env.txHash r.tx, height := r.height,
                         index := r.index, txResult := r.result, tx := r.tx,
                         proof := sp } :: tl)

/-- The pagination tail of `TxSearch` (src/unnamed/part_000 lines 110-144): computing the page, slicing
the sorted results and building the api results. -/
def paginateResults (env : Env) (prove : Bool)
    (pagePtr perPagePtr : Option Int) (results : List TxLookupRecord) :
    Except String ResultTxSearch :=
  let totalCount : Int := results.length
  let perPage := validatePerPage perPagePtr
  match validatePage pagePtr perPage totalCount with
  | Except.error e => Except.error e
  | Except.ok page =>
    let skipCount := validateSkipCount page perPage
    let pageSize := min perPage (totalCount - skipCount)
    match buildApiResults env prove
        ((results.drop skipCount.toNat).take pageSize.toNat) with
    | Except.error e => Except.error e
    | Except.ok apiResults =>
        Except.ok { txs := apiResults, totalCount := totalCount }

/-- `TxSearch` (src/unnamed/part_000 lines 64-145). -/
def TxSearch (env : Env) (query : String) (prove : Bool)
    (pagePtr perPagePtr : Option Int) (orderBy : String) :
    Except String ResultTxSearch :=
  if env.txIndexerIsNull then Except.error "transaction indexing is disabled"
  else if maxQueryLength < query.length then
    Except.error "maximum query length exceeded"
  else
    match env.parseQuery query with
    | Except.error e => Except.error e
    | Except.ok q =>
      match env.txIndexerSearch q with
      | Except.error e => Except.error e
      | Except.ok found =>
        match (if orderBy == "desc" then some (sortSlice descLess found)
               else if orderBy == "asc" || orderBy == "" then
                 some (sortSlice ascLess found)
               else none) with
        | none =>
            Except.error "expected order_by to be either asc or desc or empty"
        | some results =>
            paginateResults env prove pagePtr perPagePtr results

end rpcCmt

/-- An environment whose proof generator fails while everything else
succeeds. -/
def proveFailEnv : Env :=
  { txIndexerIsNull := false,
    txIndexerGet := fun _ =>
      Except.ok (some { height := 5, index := 2, result := 0, tx := [9] }),
    parseQuery := fun s => Except.ok s,
    txIndexerSearch := fun _ => Except.ok [],
    proveTxFn := fun _ _ => Except.error "proof generation failed",
    txHash := fun l => l }

/-- A fully succeeding environment with a two-element search result. -/
def okEnv : Env :=
  { txIndexerIsNull := false,
    txIndexerGet := fun _ =>
      Except.ok (some { height := 5, index := 2, result := 3, tx := [9, 9] }),
    parseQuery := fun s => Except.ok s,
    txIndexerSearch := fun _ =>
      Except.ok [{ height := 1, index := 0, result := 0, tx := [1] },
                 { height := 2, index := 0, result := 0, tx := [2] }],
    proveTxFn := fun _ _ => Except.ok 0,
    txHash := fun l => l }

/-- The search result `TxSearch okEnv "q" false none none ""` evaluates
to. -/
def okEnvSearchRes : ResultTxSearch :=
  { txs :=
      [{ hash := [1], height := 1, index := 0, txResult := 0, tx := [1],
         proof := 0 },
       { hash := [2], height := 2, index := 0, txResult := 0, tx := [2],
         proof := 0 }],
    totalCount := 2 }

/-! ## Dissemination engine model

Modelled from the spec: the Transaction Store, Validity Cache, Peer
Reconciliation State and Dissemination Engine (spec sections 3, 4.1-4.4)
are code of this repository that is not under src/, so they are modelled
from the spec's words. Peers are numbers, transaction hashes are numbers,
raw transactions are byte lists; the digest function, the application
validator, the pool capacity, the outstanding-want budget and the fixed
connected-peer set with their negotiated protocol versions are parameters
of the model. -/

/-- Modelled from the spec: the negotiated mempool protocol version of a
peer, fixed for the lifetime of the connection (spec section 3). -/
inductive MPMode
  | push
  | pull
deriving DecidableEq

/-- Modelled from the spec: the static configuration of a node — digest
function, application validator, pool capacity, outstanding-want budget,
and the connected peers with their protocol versions (connections span the
whole execution, so an execution is one connection lifetime for each
peer). -/
structure MPConfig where
  hashFn : List Nat → Nat
  appValid : List Nat → Bool
  capacity : Nat
  wantBudget : Nat
  peers : List Nat
  mode : Nat → MPMode

/-- Modelled from the spec: the four wire message kinds the engine emits
(spec section 6), recorded in the event log. -/
inductive MPEvent
  | sendTx (p h : Nat)
  | sendSeenTx (p h : Nat)
  | sendWantTx (p h : Nat)
  | sendNotAvailable (p h : Nat)
deriving DecidableEq

/-- Modelled from the spec: the node state — the Transaction Store (hash,
raw pairs in admission order), the Validity Cache with its invocation
counter, the three per-peer tracking sets of the Peer Reconciliation State,
and the outbound event log. -/
structure MPState where
  store : List (Nat × List Nat)
  cache : List (Nat × Bool)
  valCount : Nat
  seenBy : Nat → List Nat
  wantedBy : Nat → List Nat
  wantedFrom : Nat → List Nat
  log : List MPEvent

/-- Store membership by hash (`Contains`, spec section 4.1). -/
def storeHas (store : List (Nat × List Nat)) (h : Nat) : Bool :=
  store.any (fun e => e.1 == h)

/-- Validity Cache lookup. -/
def cacheLookup (cache : List (Nat × Bool)) (h : Nat) : Option Bool :=
  (cache.find? (fun e => e.1 == h)).map (fun e => e.2)

/-- Add a hash to a tracking set (idempotent). -/
def setAdd (l : List Nat) (h : Nat) : List Nat :=
  if h ∈ l then l else h :: l

/-- Drop a hash from a tracking set. -/
def setDel (l : List Nat) (h : Nat) : List Nat :=
  l.filter (fun x => x ≠ h)

/-- Update the tracking set of one peer. -/
def updFn (f : Nat → List Nat) (p : Nat) (v : List Nat) : Nat → List Nat :=
  fun q => if q = p then v else f q

/-- Modelled from the spec: `Validate(hash, raw)` of the Validity Cache
(spec section 4.2) — memoized per hash; a cache miss invokes the
application validator exactly once and records the outcome. -/
def validateTx (cfg : MPConfig) (s : MPState) (h : Nat) (raw : List Nat) :
    Bool × MPState :=
  match cacheLookup s.cache h with
  | some b => (b, s)
  | none =>
    (cfg.appValid raw,
     { s with cache := (h, cfg.appValid raw) :: s.cache,
              valCount := s.valCount + 1 })

/-- Modelled from the spec: the per-peer fan-out of a newly admitted
transaction (spec section 4.4) — for each connected peer other than the
origin, skip if the peer already saw the hash, push the body (and mark
seen) to push-mode peers, announce the hash to pull-mode peers. -/
def dissem (cfg : MPConfig) (h : Nat) (origin : Option Nat) :
    List Nat → MPState → MPState
  | [], s => s
  | p :: ps, s =>
    if origin = some p then dissem cfg h origin ps s
    else if h ∈ s.seenBy p then dissem cfg h origin ps s
    else
      match cfg.mode p with
      | MPMode.push =>
        dissem cfg h origin ps
          { s with seenBy := updFn s.seenBy p (setAdd (s.seenBy p) h),
                   log := s.log ++ [MPEvent.sendTx p h] }
      | MPMode.pull =>
        dissem cfg h origin ps { s with log := s.log ++ [MPEvent.sendSeenTx p h] }

/-- Modelled from the spec: the outcome of `Admit` (spec section 4.1). -/
inductive AdmitOutcome
  | added
  | alreadyPresent
  | rejected
deriving DecidableEq

/-- Modelled from the spec: `Admit(record)` (spec section 4.1) — inserts
iff the hash is absent and the Validity Cache reports valid; rejects on
pool-capacity exhaustion (reject newest) or on invalid; successful
admission fans the transaction out to all peers except its origin (spec
section 2 data flow). -/
def admitTx (cfg : MPConfig) (s : MPState) (origin : Option Nat)
    (raw : List Nat) : AdmitOutcome × MPState :=
  let h := cfg.hashFn raw
  if storeHas s.store h then (AdmitOutcome.alreadyPresent, s)
  else if cfg.capacity ≤ s.store.length then (AdmitOutcome.rejected, s)
  else
    match validateTx cfg s h raw with
    | (true, s1) =>
      (AdmitOutcome.added,
       dissem cfg h origin cfg.peers
         { s1 with store := s1.store ++ [(h, raw)] })
    | (false, s1) => (AdmitOutcome.rejected, s1)

/-- Modelled from the spec: handling an inbound `SeenTx(hash)` (spec
section 4.3 item 1) — record peer awareness (peer-reported awareness wins:
the hash also leaves `wantedBy`, suppressing any pending outbound body for
this peer, spec section 4.4 tie-break); if we do not hold the body, the
peer is in pull mode, the hash is not already requested and the
outstanding-want budget has room, request it with `WantTx` (spec section
4.4 capacity). -/
def recvSeenTx (cfg : MPConfig) (s : MPState) (p h : Nat) : MPState :=
  let s1 := { s with seenBy := updFn s.seenBy p (setAdd (s.seenBy p) h),
                     wantedBy := updFn s.wantedBy p (setDel (s.wantedBy p) h) }
  if storeHas s.store h then s1
  else if cfg.mode p = MPMode.pull ∧ h ∉ s.wantedFrom p ∧
      (s.wantedFrom p).length < cfg.wantBudget then
    { s1 with wantedFrom := updFn s1.wantedFrom p (setAdd (s1.wantedFrom p) h),
              log := s1.log ++ [MPEvent.sendWantTx p h] }
  else s1

/-- Modelled from the spec: handling an inbound `WantTx(hash)` (spec
section 4.3 item 2) — if we do not hold the body (already removed or never
seen), answer `NotAvailable`; a duplicate request for an already delivered
hash is an idempotent no-op (spec section 7); otherwise record the request
in `wantedBy` for the outbound consumer. -/
def recvWantTx (cfg : MPConfig) (s : MPState) (p h : Nat) : MPState :=
  if !(storeHas s.store h) then
    { s with log := s.log ++ [MPEvent.sendNotAvailable p h] }
  else if h ∈ s.seenBy p then s
  else { s with wantedBy := updFn s.wantedBy p (setAdd (s.wantedBy p) h) }

/-- Modelled from the spec: the per-peer outbound consumer delivering a
requested body (spec sections 4.3 item 2 and 5) — if the peer still wants
the hash and we still hold it, send the body, mark the hash seen by the
peer and clear the request; otherwise nothing to do. -/
def deliverWanted (cfg : MPConfig) (s : MPState) (p h : Nat) : MPState :=
  if h ∈ s.wantedBy p ∧ storeHas s.store h then
    { s with seenBy := updFn s.seenBy p (setAdd (s.seenBy p) h),
             wantedBy := updFn s.wantedBy p (setDel (s.wantedBy p) h),
             log := s.log ++ [MPEvent.sendTx p h] }
  else s

/-- Modelled from the spec: handling an inbound `Tx(hash, body)` (spec
section 4.3 item 3) — mark the hash seen by the sender (never announced
back), clear any request either way for it with this peer, then validate
and admit with the sender as origin. -/
def recvTxMsg (cfg : MPConfig) (s : MPState) (p : Nat) (raw : List Nat) :
    MPState :=
  let h := cfg.hashFn raw
  let s1 := { s with
    seenBy := updFn s.seenBy p (setAdd (s.seenBy p) h),
    wantedBy := updFn s.wantedBy p (setDel (s.wantedBy p) h),
    wantedFrom := updFn s.wantedFrom p (setDel (s.wantedFrom p) h) }
  (admitTx cfg s1 (some p) raw).2

/-- Modelled from the spec: `Remove(hash)` on block commit or invalidation
(spec sections 4.1 and 4.4) — the transaction leaves the store and every
peer's outstanding `wantedBy`/`wantedFrom` entries for it are cancelled;
`seenBy` persists, since `Delivered` is a terminal state recording that the
peer knows the hash (spec section 4.3), which is what keeps re-announcement
suppressed. -/
def removeTx (cfg : MPConfig) (s : MPState) (h : Nat) : MPState :=
  { s with store := s.store.filter (fun e => e.1 ≠ h),
           wantedBy := fun p => setDel (s.wantedBy p) h,
           wantedFrom := fun p => setDel (s.wantedFrom p) h }

/-- Modelled from the spec: the commands driving the node — local or
forwarded admission, the three inbound message kinds, one outbound
delivery step, and block-commit removal. -/
inductive MPCmd
  | submit (origin : Option Nat) (raw : List Nat)
  | seenTx (p h : Nat)
  | wantTx (p h : Nat)
  | txMsg (p : Nat) (raw : List Nat)
  | deliver (p h : Nat)
  | remove (h : Nat)

/-- One step of the modelled engine. -/
def mpStep (cfg : MPConfig) (s : MPState) : MPCmd → MPState
  | MPCmd.submit o raw => (admitTx cfg s o raw).2
  | MPCmd.seenTx p h => recvSeenTx cfg s p h
  | MPCmd.wantTx p h => recvWantTx cfg s p h
  | MPCmd.txMsg p raw => recvTxMsg cfg s p raw
  | MPCmd.deliver p h => deliverWanted cfg s p h
  | MPCmd.remove h => removeTx cfg s h

/-- The empty initial state. -/
def mpInit : MPState :=
  { store := [], cache := [], valCount := 0,
    seenBy := fun _ => [], wantedBy := fun _ => [],
    wantedFrom := fun _ => [], log := [] }

/-- Run a command list from the initial state. -/
def mpRun (cfg : MPConfig) (cmds : List MPCmd) : MPState :=
  cmds.foldl (mpStep cfg) mpInit

/-- Number of `Tx(hash, body)` deliveries to peer `p` for hash `h` in the
event log. -/
def countTx (p h : Nat) : List MPEvent → Nat
  | [] => 0
  | e :: rest => (if e = MPEvent.sendTx p h then 1 else 0) + countTx p h rest

/-- Number of `NotAvailable(hash)` answers to peer `p` for hash `h` in the
event log. -/
def countNA (p h : Nat) : List MPEvent → Nat
  | [] => 0
  | e :: rest =>
    (if e = MPEvent.sendNotAvailable p h then 1 else 0) + countNA p h rest

/-- The engine invariant: every body is delivered to a peer at most once, a
delivered body means the peer is recorded as having seen the hash, and an
outstanding `wantedBy` request is for a hash the peer has not yet seen and
the store still holds. -/
def MPInv (s : MPState) : Prop :=
  (∀ p h, countTx p h s.log ≤ 1) ∧
  (∀ p h, 1 ≤ countTx p h s.log → h ∈ s.seenBy p) ∧
  (∀ p h, h ∈ s.wantedBy p → h ∉ s.seenBy p ∧ storeHas s.store h = true)

/-- Does a command introduce the hash `h` into the store — an admission or
an inbound body whose raw bytes digest to `h`. -/
def introducesHash (cfg : MPConfig) (h : Nat) : MPCmd → Prop
  | MPCmd.submit _ raw => cfg.hashFn raw = h
  | MPCmd.txMsg _ raw => cfg.hashFn raw = h
  | _ => False

/-- A concrete configuration for counterexamples and witnesses: one
pull-mode peer, hashing by list length. -/
def exCfg : MPConfig :=
  { hashFn := fun raw => raw.length,
    appValid := fun _ => true,
    capacity := 10,
    wantBudget := 3,
    peers := [0],
    mode := fun _ => MPMode.pull }

/-! ## Theorems about the trace schema -/

/-- C1 (code bug): a client collecting the mempool peer-state table receives
no point from `WriteMempoolPeerState`, because the source checks and writes
the consensus round-state table instead of `MempoolPeerStateTable`; a client
collecting the round-state table receives the per-peer state-update point,
in a table that is not the mempool peer-state table. -/
theorem writeMempoolPeerState_misses_mempool_table :
    IsCollecting peerStateOnlyClient MempoolPeerStateTable = true ∧
    WriteMempoolPeerState peerStateOnlyClient "peerA"
      SeenTxStateUpdateFieldValue "download" CatVersionFieldValue = [] ∧
    WriteMempoolPeerState roundStateOnlyClient "peerA"
      SeenTxStateUpdateFieldValue "download" CatVersionFieldValue =
      [{ table := RoundStateTable,
         fields :=
           [(PeerFieldKey, FieldValue.s "peerA"),
            (TransferTypeFieldKey, FieldValue.s "download"),
            (StateUpdateFieldKey, FieldValue.s SeenTxStateUpdateFieldValue),
            (VersionFieldKey, FieldValue.s CatVersionFieldValue)] }] ∧
    RoundStateTable ≠ MempoolPeerStateTable := by
  exact ⟨rfl, rfl, rfl, by decide⟩

/-- C3: when the client collects the mempool tx table, `WriteMempoolTx`
emits exactly one point to that table whose size field is the byte length of
the transaction, whose tx field is the hex string of the digest of the raw
bytes, and whose version field is the given version label; otherwise it
emits nothing. -/
theorem writeMempoolTx_point (digest : List Nat → List Nat)
    (client : TraceClient) (peer : String) (tx : List Nat)
    (transferType version : String) :
    (IsCollecting client MempoolTxTable = true →
      ∃ pt, WriteMempoolTx digest client peer tx transferType version = [pt] ∧
        pt.table = MempoolTxTable ∧
        lookupField pt.fields SizeFieldKey = some (FieldValue.n tx.length) ∧
        lookupField pt.fields TxFieldKey =
          some (FieldValue.s (hexBytesString (digest tx))) ∧
        lookupField pt.fields VersionFieldKey = some (FieldValue.s version)) ∧
    (IsCollecting client MempoolTxTable = false →
      WriteMempoolTx digest client peer tx transferType version = []) := by
  constructor
  · intro hcol
    refine ⟨{ table := MempoolTxTable,
              fields :=
                [(TxFieldKey, FieldValue.s (hexBytesString (digest tx))),
                 (PeerFieldKey, FieldValue.s peer),
                 (SizeFieldKey, FieldValue.n tx.length),
                 (TransferTypeFieldKey, FieldValue.s transferType),
                 (VersionFieldKey, FieldValue.s version)] },
           ?_, rfl, rfl, rfl, rfl⟩
    simp [WriteMempoolTx, hcol]
  · intro hcol
    simp [WriteMempoolTx, hcol]

/-- C3 witness: both branches of the theorem at concrete clients. -/
theorem writeMempoolTx_point_witness :
    (∃ pt, WriteMempoolTx (fun l => l) mempoolTxOnlyClient "p" [7, 8] "download"
        CatVersionFieldValue = [pt] ∧
      pt.table = MempoolTxTable ∧
      lookupField pt.fields SizeFieldKey = some (FieldValue.n ([7, 8].length)) ∧
      lookupField pt.fields TxFieldKey =
        some (FieldValue.s (hexBytesString ((fun l => l) [7, 8]))) ∧
      lookupField pt.fields VersionFieldKey =
        some (FieldValue.s CatVersionFieldValue)) ∧
    WriteMempoolTx (fun l => l) silentClient "p" [7, 8] "download"
      CatVersionFieldValue = [] := by
  constructor
  · exact (writeMempoolTx_point (fun l => l) mempoolTxOnlyClient "p" [7, 8]
      "download" CatVersionFieldValue).1 (by decide)
  · exact (writeMempoolTx_point (fun l => l) silentClient "p" [7, 8]
      "download" CatVersionFieldValue).2 (by decide)

/-- C4: the observability sink never influences control flow. For any two
clients (in particular one whose `IsCollecting` answer is true and one whose
answer is false), both write functions return the same unit value, leave all
non-sink state untouched, and only ever append at most one point to the
sink. -/
theorem observability_sink_noninterference {σ : Type}
    (digest : List Nat → List Nat) (c1 c2 : TraceClient)
    (peer : String) (tx : List Nat) (stateUpdate transferType version : String)
    (w : TraceWorld σ) :
    (runWriteMempoolTx digest c1 peer tx transferType version w).1 =
      (runWriteMempoolTx digest c2 peer tx transferType version w).1 ∧
    (runWriteMempoolTx digest c1 peer tx transferType version w).2.rest =
      w.rest ∧
    (runWriteMempoolTx digest c2 peer tx transferType version w).2.rest =
      w.rest ∧
    (∃ extra,
      (runWriteMempoolTx digest c1 peer tx transferType version w).2.sink =
        w.sink ++ extra ∧ extra.length ≤ 1) ∧
    (runWriteMempoolPeerState c1 peer stateUpdate transferType version w).1 =
      (runWriteMempoolPeerState c2 peer stateUpdate transferType version w).1 ∧
    (runWriteMempoolPeerState c1 peer stateUpdate transferType version w).2.rest =
      w.rest ∧
    (∃ extra,
      (runWriteMempoolPeerState c1 peer stateUpdate transferType version w).2.sink =
        w.sink ++ extra ∧ extra.length ≤ 1) := by
  refine ⟨rfl, rfl, rfl, ⟨_, rfl, ?_⟩, rfl, rfl, ⟨_, rfl, ?_⟩⟩
  · unfold WriteMempoolTx
    split <;> simp
  · unfold WriteMempoolPeerState
    split <;> simp

/-- C7: `MempoolTables` returns exactly the two mempool table names, the
removed_tx and added_tx state-update field values exist in the schema, and
no local-mempool table is among the traced tables. -/
theorem mempoolTables_exact :
    MempoolTables = ["mempool_tx", "mempool_peer_state"] ∧
    RemovedTxStateUpdateFieldValue = "removed_tx" ∧
    AddedTxStateUpdateFieldValue = "added_tx" ∧
    "mempool_local" ∉ MempoolTables := by
  exact ⟨rfl, rfl, rfl, by decide⟩

/-! ## Theorems about the rpc tx endpoints -/

theorem insertIn_length {α : Type} (less : α → α → Bool) (x : α)
    (l : List α) : (insertIn less x l).length = l.length + 1 := by
  induction l with
  | nil => rfl
  | cons y ys ih =>
    unfold insertIn
    split
    · simp
    · simp [ih]

theorem sortSlice_length {α : Type} (less : α → α → Bool) (xs : List α) :
    (sortSlice less xs).length = xs.length := by
  induction xs with
  | nil => rfl
  | cons x xs ih =>
    simp only [sortSlice, List.foldr] at ih ⊢
    rw [insertIn_length, ih]
    simp

theorem validatePerPage_pos (perPagePtr : Option Int) :
    1 ≤ validatePerPage perPagePtr := by
  cases perPagePtr with
  | none => norm_num [validatePerPage, defaultPerPage]
  | some p =>
    simp only [validatePerPage, defaultPerPage, maxPerPage]
    split
    · norm_num
    · split
      · norm_num
      · omega

theorem buildApiResults_tm_length (env : Env) (prove : Bool) :
    ∀ l out, rpcTm.buildApiResults env prove l = Except.ok out →
      out.length = l.length := by
  intro l
  induction l with
  | nil =>
    intro out h
    unfold rpcTm.buildApiResults at h
    injection h with h2
    rw [← h2]
    rfl
  | cons r rest ih =>
    intro out h
    unfold rpcTm.buildApiResults at h
    split at h
    · exact Except.noConfusion h
    · split at h
      · exact Except.noConfusion h
      · rename_i tl hb
        injection h with h2
        rw [← h2]
        simp [ih tl hb]

theorem buildApiResults_eq (env : Env) (prove : Bool)
    (l : List TxLookupRecord) :
    rpcTm.buildApiResults env prove l = rpcCmt.buildApiResults env prove l := by
  induction l with
  | nil => rfl
  | cons r rest ih =>
    unfold rpcTm.buildApiResults rpcCmt.buildApiResults
    rw [ih]

/-- C8: the `Tx` and `TxSearch` of src/rpc/core/tx.go and their copies in
src/unnamed/part_000 are behaviorally equivalent: on every environment,
hash, query, pagination and ordering argument they return equal results and
equal errors. -/
theorem rpc_tx_copies_equivalent (env : Env) (hash : List Nat)
    (prove : Bool) (query : String) (pagePtr perPagePtr : Option Int)
    (orderBy : String) :
    rpcTm.Tx env hash prove = rpcCmt.Tx env hash prove ∧
    rpcTm.TxSearch env query prove pagePtr perPagePtr orderBy =
      rpcCmt.TxSearch env query prove pagePtr perPagePtr orderBy := by
  have hb : rpcTm.buildApiResults = rpcCmt.buildApiResults := by
    funext env prove l
    exact buildApiResults_eq env prove l
  constructor
  · rfl
  · have hdl : rpcTm.descLess = rpcCmt.descLess := rfl
    have hal : rpcTm.ascLess = rpcCmt.ascLess := rfl
    have hpag : rpcTm.paginateResults = rpcCmt.paginateResults := by
      unfold rpcTm.paginateResults rpcCmt.paginateResults
      rw [hb]
    unfold rpcTm.TxSearch rpcCmt.TxSearch
    rw [hpag, hdl, hal]

/-- C9 counterexample: with the indexer enabled, the lookup succeeding and a
record found, `Tx` with prove set still returns an error when proof
generation fails — a fourth failure case beyond the three the claim
lists. -/
theorem tx_fourth_error_case :
    proveFailEnv.txIndexerIsNull = false ∧
    proveFailEnv.txIndexerGet [1] =
      Except.ok (some { height := 5, index := 2, result := 0, tx := [9] }) ∧
    rpcTm.Tx proveFailEnv [1] true =
      Except.error "proof generation failed" :=
  ⟨rfl, rfl, rfl⟩

/-- C9 (amended): `Tx` never returns a result together with an error (its
return is one exception-monad value), it errors in exactly four cases — the
indexer is the null indexer, the indexer lookup fails, the indexer has no
record for the hash, or (when prove is set) proof generation fails — and on
success the result's hash is the queried hash and its proof is the zero
share proof whenever prove is false. -/
theorem tx_result_and_error_cases (env : Env) (hash : List Nat)
    (prove : Bool) :
    (∀ r, rpcTm.Tx env hash prove = Except.ok r →
      r.hash = hash ∧ (prove = false → r.proof = zeroShareProof)) ∧
    ((∃ e, rpcTm.Tx env hash prove = Except.error e) ↔
      (env.txIndexerIsNull = true ∨
       (∃ e, env.txIndexerGet hash = Except.error e) ∨
       env.txIndexerGet hash = Except.ok none ∨
       (prove = true ∧ ∃ r e, env.txIndexerGet hash = Except.ok (some r) ∧
         env.proveTxFn r.height r.index = Except.error e))) := by
  cases hnull : env.txIndexerIsNull with
  | true =>
    constructor
    · intro r hr
      simp [rpcTm.Tx, hnull] at hr
    · constructor
      · intro _
        exact Or.inl rfl
      · intro _
        exact ⟨"transaction indexing is disabled", by simp [rpcTm.Tx, hnull]⟩
  | false =>
    cases hget : env.txIndexerGet hash with
    | error e =>
      constructor
      · intro r hr
        simp [rpcTm.Tx, hnull, hget] at hr
      · constructor
        · intro _
          exact Or.inr (Or.inl ⟨e, rfl⟩)
        · intro _
          exact ⟨e, by simp [rpcTm.Tx, hnull, hget]⟩
    | ok o =>
      cases o with
      | none =>
        constructor
        · intro r hr
          simp [rpcTm.Tx, hnull, hget] at hr
        · constructor
          · intro _
            exact Or.inr (Or.inr (Or.inl rfl))
          · intro _
            exact ⟨"tx (" ++ hexBytesString hash ++ ") not found",
              by simp [rpcTm.Tx, hnull, hget]⟩
      | some rcd =>
        cases prove with
        | false =>
          have hv : rpcTm.Tx env hash false =
              Except.ok { hash := hash, height := rcd.height,
                          index := rcd.index, txResult := rcd.result,
                          tx := rcd.tx, proof := zeroShareProof } := by
            simp [rpcTm.Tx, hnull, hget]
          constructor
          · intro r hr
            rw [hv] at hr
            injection hr with h2
            rw [← h2]
            exact ⟨rfl, fun _ => rfl⟩
          · simp [hv, hnull, hget]
        | true =>
          cases hp : env.proveTxFn rcd.height rcd.index with
          | error e =>
            have hv : rpcTm.Tx env hash true = Except.error e := by
              simp [rpcTm.Tx, hnull, hget, hp]
            constructor
            · intro r hr
              rw [hv] at hr
              exact Except.noConfusion hr
            · constructor
              · intro _
                exact Or.inr (Or.inr (Or.inr ⟨rfl, rcd, e, rfl, hp⟩))
              · intro _
                exact ⟨e, hv⟩
          | ok sp =>
            have hv : rpcTm.Tx env hash true =
                Except.ok { hash := hash, height := rcd.height,
                            index := rcd.index, txResult := rcd.result,
                            tx := rcd.tx, proof := sp } := by
              simp [rpcTm.Tx, hnull, hget, hp]
            constructor
            · intro r hr
              rw [hv] at hr
              injection hr with h2
              rw [← h2]
              exact ⟨rfl, fun hf => Bool.noConfusion hf⟩
            · simp [hv, hnull, hget, hp]

/-- C9 witness: the amended theorem applied to a concrete succeeding
environment without proof generation. -/
theorem tx_result_and_error_cases_witness :
    ({ hash := [1], height := 5, index := 2, txResult := 3, tx := [9, 9],
       proof := zeroShareProof } : ResultTx).hash = [1] ∧
    (false = false →
      ({ hash := [1], height := 5, index := 2, txResult := 3, tx := [9, 9],
         proof := zeroShareProof } : ResultTx).proof = zeroShareProof) :=
  (tx_result_and_error_cases okEnv [1] false).1 _ rfl

theorem page_len_bound (pp n : Int) (sk : Int) (rs : List TxLookupRecord)
    (hpp : 1 ≤ pp) :
    (((rs.drop sk.toNat).take (min pp n).toNat).length : Int) ≤ pp := by
  have htake : ((rs.drop sk.toNat).take (min pp n).toNat).length ≤
      (min pp n).toNat := by
    simp [List.length_take]
  have h1 : (((rs.drop sk.toNat).take (min pp n).toNat).length : Int) ≤
      ((min pp n).toNat : Int) := by
    exact_mod_cast htake
  have h2 : ((min pp n).toNat : Int) ≤ pp := by
    rw [Int.toNat_eq_max]
    exact max_le (min_le_left _ _) (by linarith)
  linarith

theorem paginateResults_ok (env : Env) (prove : Bool)
    (pagePtr perPagePtr : Option Int) (results : List TxLookupRecord)
    (res : ResultTxSearch)
    (h : rpcTm.paginateResults env prove pagePtr perPagePtr results =
      Except.ok res) :
    (res.txs.length : Int) ≤ validatePerPage perPagePtr ∧
    res.totalCount = results.length := by
  unfold rpcTm.paginateResults at h
  dsimp only at h
  split at h
  · exact Except.noConfusion h
  · split at h
    · exact Except.noConfusion h
    · rename_i page hpage apiResults hb
      injection h with h2
      rw [← h2]
      refine ⟨?_, rfl⟩
      have hlen := buildApiResults_tm_length env prove _ _ hb
      simp only [hlen]
      exact page_len_bound _ _ _ _ (validatePerPage_pos perPagePtr)

/-- C10: when `TxSearch` succeeds, `Txs` holds at most the validated
per-page number of transactions and `TotalCount` equals the number of
results the indexer returned before pagination; any order_by other than
asc, desc or the empty string yields an error and no results. -/
theorem txSearch_pagination_bounds (env : Env) (query : String)
    (prove : Bool) (pagePtr perPagePtr : Option Int) (orderBy : String) :
    (∀ res, rpcTm.TxSearch env query prove pagePtr perPagePtr orderBy =
        Except.ok res →
      (res.txs.length : Int) ≤ validatePerPage perPagePtr ∧
      ∃ q found, env.parseQuery query = Except.ok q ∧
        env.txIndexerSearch q = Except.ok found ∧
        res.totalCount = found.length) ∧
    (orderBy ≠ "asc" → orderBy ≠ "desc" → orderBy ≠ "" →
      ∃ e, rpcTm.TxSearch env query prove pagePtr perPagePtr orderBy =
        Except.error e) := by
  constructor
  · intro res h
    cases hnull : env.txIndexerIsNull with
    | true => simp [rpcTm.TxSearch, hnull] at h
    | false =>
      by_cases hlen : maxQueryLength < query.length
      · simp [rpcTm.TxSearch, hnull, hlen] at h
      · cases hq : env.parseQuery query with
        | error e => simp [rpcTm.TxSearch, hnull, hlen, hq] at h
        | ok q =>
          cases hf : env.txIndexerSearch q with
          | error e => simp [rpcTm.TxSearch, hnull, hlen, hq, hf] at h
          | ok found =>
            by_cases hdesc : orderBy = "desc"
            · have h2 : rpcTm.paginateResults env prove pagePtr perPagePtr
                  (sortSlice rpcTm.descLess found) = Except.ok res := by
                simpa [rpcTm.TxSearch, hnull, hlen, hq, hf, hdesc] using h
              have hb := paginateResults_ok _ _ _ _ _ _ h2
              exact ⟨hb.1, q, found, rfl, hf, by rw [hb.2, sortSlice_length]⟩
            · by_cases hasc : orderBy = "asc"
              · have h2 : rpcTm.paginateResults env prove pagePtr perPagePtr
                    (sortSlice rpcTm.ascLess found) = Except.ok res := by
                  simpa [rpcTm.TxSearch, hnull, hlen, hq, hf, hasc, hdesc]
                    using h
                have hb := paginateResults_ok _ _ _ _ _ _ h2
                exact ⟨hb.1, q, found, rfl, hf,
                  by rw [hb.2, sortSlice_length]⟩
              · by_cases hempty : orderBy = ""
                · have h2 : rpcTm.paginateResults env prove pagePtr perPagePtr
                      (sortSlice rpcTm.ascLess found) = Except.ok res := by
                    simpa [rpcTm.TxSearch, hnull, hlen, hq, hf, hempty,
                      hasc, hdesc] using h
                  have hb := paginateResults_ok _ _ _ _ _ _ h2
                  exact ⟨hb.1, q, found, rfl, hf,
                    by rw [hb.2, sortSlice_length]⟩
                · simp [rpcTm.TxSearch, hnull, hlen, hq, hf, beq_iff_eq,
                    hdesc, hasc, hempty] at h
  · intro ha hd he
    cases hnull : env.txIndexerIsNull with
    | true =>
      exact ⟨"transaction indexing is disabled",
        by simp [rpcTm.TxSearch, hnull]⟩
    | false =>
      by_cases hlen : maxQueryLength < query.length
      · exact ⟨"maximum query length exceeded",
          by simp [rpcTm.TxSearch, hnull, hlen]⟩
      · cases hq : env.parseQuery query with
        | error e => exact ⟨e, by simp [rpcTm.TxSearch, hnull, hlen, hq]⟩
        | ok q =>
          cases hf : env.txIndexerSearch q with
          | error e =>
            exact ⟨e, by simp [rpcTm.TxSearch, hnull, hlen, hq, hf]⟩
          | ok found =>
            exact ⟨"expected order_by to be either asc or desc or empty",
              by simp [rpcTm.TxSearch, hnull, hlen, hq, hf, beq_iff_eq,
                ha, hd, he]⟩

/-- C10 witness: the theorem applied to a concrete succeeding search and to
a concrete invalid order_by. -/
theorem txSearch_pagination_bounds_witness :
    ((okEnvSearchRes.txs.length : Int) ≤ validatePerPage none ∧
      ∃ q found, okEnv.parseQuery "q" = Except.ok q ∧
        okEnv.txIndexerSearch q = Except.ok found ∧
        okEnvSearchRes.totalCount = found.length) ∧
    (∃ e, rpcTm.TxSearch okEnv "q" false none none "zz" =
      Except.error e) := by
  constructor
  · exact (txSearch_pagination_bounds okEnv "q" false none none "").1
      okEnvSearchRes (by rfl)
  · exact (txSearch_pagination_bounds okEnv "q" false none none "zz").2
      (by decide) (by decide) (by decide)

/-! ## Theorems about the dissemination engine model -/

theorem countTx_append (p h : Nat) (l1 l2 : List MPEvent) :
    countTx p h (l1 ++ l2) = countTx p h l1 + countTx p h l2 := by
  induction l1 with
  | nil => simp [countTx]
  | cons e rest ih => simp [countTx, ih, Nat.add_assoc]

theorem countNA_append (p h : Nat) (l1 l2 : List MPEvent) :
    countNA p h (l1 ++ l2) = countNA p h l1 + countNA p h l2 := by
  induction l1 with
  | nil => simp [countNA]
  | cons e rest ih => simp [countNA, ih, Nat.add_assoc]

theorem setAdd_mem (l : List Nat) (h x : Nat) :
    x ∈ setAdd l h ↔ x ∈ l ∨ x = h := by
  unfold setAdd
  split
  · rename_i hin
    constructor
    · exact Or.inl
    · rintro (hx | rfl)
      · exact hx
      · exact hin
  · simp [List.mem_cons]
    tauto

theorem setAdd_self (l : List Nat) (h : Nat) : h ∈ setAdd l h := by
  rw [setAdd_mem]
  exact Or.inr rfl

theorem setDel_mem (l : List Nat) (h x : Nat) :
    x ∈ setDel l h ↔ x ∈ l ∧ x ≠ h := by
  unfold setDel
  simp [List.mem_filter]

theorem setDel_not_self (l : List Nat) (h : Nat) : h ∉ setDel l h := by
  rw [setDel_mem]
  tauto

theorem storeHas_iff (l : List (Nat × List Nat)) (h : Nat) :
    storeHas l h = true ↔ ∃ e ∈ l, e.1 = h := by
  simp [storeHas, List.any_eq_true]

theorem storeHas_append (l1 l2 : List (Nat × List Nat)) (h : Nat) :
    storeHas (l1 ++ l2) h = (storeHas l1 h || storeHas l2 h) := by
  simp [storeHas, List.any_append]

theorem removeTx_storeHas_self (cfg : MPConfig) (s : MPState) (h : Nat) :
    storeHas (removeTx cfg s h).store h = false := by
  rw [Bool.eq_false_iff]
  intro hc
  rw [storeHas_iff] at hc
  obtain ⟨e, he, he1⟩ := hc
  rw [removeTx] at he
  simp [List.mem_filter] at he
  exact he.2 he1

theorem removeTx_storeHas_mono (cfg : MPConfig) (s : MPState) (h x : Nat)
    (hx : storeHas s.store x = true) (hne : x ≠ h) :
    storeHas (removeTx cfg s h).store x = true := by
  rw [storeHas_iff] at hx ⊢
  obtain ⟨e, he, he1⟩ := hx
  refine ⟨e, ?_, he1⟩
  rw [removeTx]
  simp [List.mem_filter]
  exact ⟨he, by rw [he1]; exact hne⟩

theorem removeTx_storeHas_le (cfg : MPConfig) (s : MPState) (h x : Nat)
    (hx : storeHas (removeTx cfg s h).store x = true) :
    storeHas s.store x = true := by
  rw [storeHas_iff] at hx ⊢
  obtain ⟨e, he, he1⟩ := hx
  rw [removeTx] at he
  simp [List.mem_filter] at he
  exact ⟨e, he.1, he1⟩

theorem validateTx_misc (cfg : MPConfig) (s : MPState) (h : Nat)
    (raw : List Nat) :
    (validateTx cfg s h raw).2.store = s.store ∧
    (validateTx cfg s h raw).2.seenBy = s.seenBy ∧
    (validateTx cfg s h raw).2.wantedBy = s.wantedBy ∧
    (validateTx cfg s h raw).2.wantedFrom = s.wantedFrom ∧
    (validateTx cfg s h raw).2.log = s.log := by
  unfold validateTx
  split
  · exact ⟨rfl, rfl, rfl, rfl, rfl⟩
  · exact ⟨rfl, rfl, rfl, rfl, rfl⟩

theorem dissem_misc (cfg : MPConfig) (h : Nat) (o : Option Nat) :
    ∀ (ps : List Nat) (s : MPState),
      (dissem cfg h o ps s).store = s.store ∧
      (dissem cfg h o ps s).cache = s.cache ∧
      (dissem cfg h o ps s).valCount = s.valCount ∧
      (dissem cfg h o ps s).wantedBy = s.wantedBy ∧
      (dissem cfg h o ps s).wantedFrom = s.wantedFrom := by
  intro ps
  induction ps with
  | nil => intro s; exact ⟨rfl, rfl, rfl, rfl, rfl⟩
  | cons p ps ih =>
    intro s
    unfold dissem
    split
    · exact ih s
    · split
      · exact ih s
      · split
        · exact ih _
        · exact ih _

theorem dissem_seen_mono (cfg : MPConfig) (hh : Nat) (o : Option Nat) :
    ∀ (ps : List Nat) (s : MPState) (q x : Nat),
      x ∈ s.seenBy q → x ∈ (dissem cfg hh o ps s).seenBy q := by
  intro ps
  induction ps with
  | nil => intro s q x hx; exact hx
  | cons p ps ih =>
    intro s q x hx
    unfold dissem
    split
    · exact ih s q x hx
    · split
      · exact ih s q x hx
      · split
        · apply ih
          by_cases hq : q = p
          · subst hq
            simp [updFn]
            rw [setAdd_mem]
            exact Or.inl hx
          · simp only [updFn, if_neg hq]
            exact hx
        · exact ih _ q x hx

theorem dissem_seen_cases (cfg : MPConfig) (hh : Nat) (o : Option Nat) :
    ∀ (ps : List Nat) (s : MPState) (q x : Nat),
      x ∈ (dissem cfg hh o ps s).seenBy q → x ∈ s.seenBy q ∨ x = hh := by
  intro ps
  induction ps with
  | nil => intro s q x hx; exact Or.inl hx
  | cons p ps ih =>
    intro s q x hx
    unfold dissem at hx
    split at hx
    · exact ih s q x hx
    · split at hx
      · exact ih s q x hx
      · split at hx
        · rcases ih _ q x hx with hin | hout
          · by_cases hq : q = p
            · subst hq
              simp [updFn] at hin
              rw [setAdd_mem] at hin
              exact hin
            · simp only [updFn, if_neg hq] at hin
              exact Or.inl hin
          · exact Or.inr hout
        · exact ih { s with log := s.log ++ [MPEvent.sendSeenTx p hh] } q x hx

theorem dissem_J (cfg : MPConfig) (hh : Nat) (o : Option Nat) :
    ∀ (ps : List Nat) (s : MPState),
      (∀ p h, countTx p h s.log ≤ 1) →
      (∀ p h, 1 ≤ countTx p h s.log → h ∈ s.seenBy p) →
      (∀ p h, countTx p h (dissem cfg hh o ps s).log ≤ 1) ∧
      (∀ p h, 1 ≤ countTx p h (dissem cfg hh o ps s).log →
        h ∈ (dissem cfg hh o ps s).seenBy p) := by
  intro ps
  induction ps with
  | nil => intro s h1 h2; exact ⟨h1, h2⟩
  | cons p ps ih =>
    intro s h1 h2
    unfold dissem
    split
    · exact ih s h1 h2
    · rename_i ho
      split
      · exact ih s h1 h2
      · rename_i hseen
        split
        · -- push: send the body and mark seen
          apply ih
          · intro q x
            rw [countTx_append]
            by_cases hq : q = p
            · by_cases hx : x = hh
              · subst hq
                subst hx
                have h0 : countTx q x s.log = 0 := by
                  by_contra hc
                  exact hseen (h2 q x (Nat.one_le_iff_ne_zero.mpr hc))
                simp [countTx, h0]
              · have : ¬ (MPEvent.sendTx p hh = MPEvent.sendTx q x) := by
                  intro hc
                  injection hc with hc1 hc2
                  exact hx hc2.symm
                simp [countTx, this]
                exact h1 q x
            · have : ¬ (MPEvent.sendTx p hh = MPEvent.sendTx q x) := by
                intro hc
                injection hc with hc1 hc2
                exact hq hc1.symm
              simp [countTx, this]
              exact h1 q x
          · intro q x hx
            rw [countTx_append] at hx
            by_cases hq : q = p
            · subst hq
              simp [updFn]
              rw [setAdd_mem]
              by_cases hx2 : x = hh
              · exact Or.inr hx2
              · have : ¬ (MPEvent.sendTx q hh = MPEvent.sendTx q x) := by
                  intro hc
                  injection hc with hc1 hc2
                  exact hx2 hc2.symm
                simp [countTx, this] at hx
                exact Or.inl (h2 q x hx)
            · simp only [updFn, if_neg hq]
              have : ¬ (MPEvent.sendTx p hh = MPEvent.sendTx q x) := by
                intro hc
                injection hc with hc1 hc2
                exact hq hc1.symm
              simp [countTx, this] at hx
              exact h2 q x hx
        · -- pull: only a SeenTx announcement is logged
          apply ih
          · intro q x
            rw [countTx_append]
            simp [countTx]
            exact h1 q x
          · intro q x hx
            rw [countTx_append] at hx
            simp [countTx] at hx
            exact h2 q x hx

theorem markSeen_inv (s : MPState) (p h : Nat) (wf : Nat → List Nat)
    (hi : MPInv s) :
    MPInv { s with seenBy := updFn s.seenBy p (setAdd (s.seenBy p) h),
                   wantedBy := updFn s.wantedBy p (setDel (s.wantedBy p) h),
                   wantedFrom := wf } := by
  obtain ⟨h1, h2, h3⟩ := hi
  refine ⟨h1, ?_, ?_⟩
  · intro q x hx
    have hx2 := h2 q x hx
    dsimp only
    by_cases hq : q = p
    · subst hq
      simp [updFn]
      rw [setAdd_mem]
      exact Or.inl hx2
    · simp [updFn, hq]
      exact hx2
  · intro q x hx
    dsimp only at hx ⊢
    by_cases hq : q = p
    · subst hq
      simp [updFn] at hx ⊢
      rw [setDel_mem] at hx
      have h3x := h3 q x hx.1
      constructor
      · rw [setAdd_mem]
        rintro (hin | hxh)
        · exact h3x.1 hin
        · exact hx.2 hxh
      · exact h3x.2
    · simp [updFn, hq] at hx ⊢
      exact h3 q x hx

theorem logExtendNoTx_inv (s : MPState) (ev : MPEvent) (wf : Nat → List Nat)
    (hne : ∀ p h, ev ≠ MPEvent.sendTx p h) (hi : MPInv s) :
    MPInv { s with wantedFrom := wf, log := s.log ++ [ev] } := by
  obtain ⟨h1, h2, h3⟩ := hi
  refine ⟨?_, ?_, ?_⟩
  · intro p h
    dsimp only
    rw [countTx_append]
    have h0 : countTx p h [ev] = 0 := by simp [countTx, hne p h]
    rw [h0]
    simpa using h1 p h
  · intro p h hx
    dsimp only at hx ⊢
    rw [countTx_append] at hx
    have h0 : countTx p h [ev] = 0 := by simp [countTx, hne p h]
    rw [h0] at hx
    exact h2 p h (by simpa using hx)
  · intro q x hx
    exact h3 q x hx

theorem admitTx_inv (cfg : MPConfig) (s : MPState) (o : Option Nat)
    (raw : List Nat) (hi : MPInv s) : MPInv (admitTx cfg s o raw).2 := by
  obtain ⟨h1, h2, h3⟩ := hi
  unfold admitTx
  dsimp only
  split
  · exact ⟨h1, h2, h3⟩
  · rename_i hns
    split
    · exact ⟨h1, h2, h3⟩
    · split
      · rename_i s1 hval
        have hm := validateTx_misc cfg s (cfg.hashFn raw) raw
        rw [hval] at hm
        dsimp only at hm
        obtain ⟨hst, hsee, hwb, hwf, hlog⟩ := hm
        have hstore2 : storeHas s.store (cfg.hashFn raw) = false :=
          Bool.eq_false_iff.mpr hns
        have hJ := dissem_J cfg (cfg.hashFn raw) o cfg.peers
          { s1 with store := s1.store ++ [(cfg.hashFn raw, raw)] }
          (by intro p h; dsimp only; rw [hlog]; exact h1 p h)
          (by intro p h hx; dsimp only at hx ⊢; rw [hlog] at hx;
              rw [hsee]; exact h2 p h hx)
        refine ⟨hJ.1, hJ.2, ?_⟩
        intro q x hx
        have hwbd := (dissem_misc cfg (cfg.hashFn raw) o cfg.peers
          { s1 with store := s1.store ++ [(cfg.hashFn raw, raw)] }).2.2.2.1
        rw [hwbd] at hx
        dsimp only at hx
        rw [hwb] at hx
        have h3x := h3 q x hx
        constructor
        · intro hc
          rcases dissem_seen_cases cfg (cfg.hashFn raw) o cfg.peers
            { s1 with store := s1.store ++ [(cfg.hashFn raw, raw)] }
            q x hc with hin | hxeq
          · dsimp only at hin
            rw [hsee] at hin
            exact h3x.1 hin
          · rw [hxeq] at h3x
            rw [hstore2] at h3x
            exact Bool.false_ne_true h3x.2
        · have hsd := (dissem_misc cfg (cfg.hashFn raw) o cfg.peers
            { s1 with store := s1.store ++ [(cfg.hashFn raw, raw)] }).1
          rw [hsd]
          dsimp only
          rw [storeHas_append, hst, h3x.2]
          simp
      · rename_i s1 hval
        have hm := validateTx_misc cfg s (cfg.hashFn raw) raw
        rw [hval] at hm
        dsimp only at hm
        obtain ⟨hst, hsee, hwb, hwf, hlog⟩ := hm
        refine ⟨?_, ?_, ?_⟩
        · intro p h
          rw [hlog]
          exact h1 p h
        · intro p h hx
          rw [hlog] at hx
          rw [hsee]
          exact h2 p h hx
        · intro q x hx
          rw [hwb] at hx
          rw [hsee, hst]
          exact h3 q x hx

theorem mpStep_inv (cfg : MPConfig) (s : MPState) (c : MPCmd)
    (hi : MPInv s) : MPInv (mpStep cfg s c) := by
  cases c with
  | submit o raw => exact admitTx_inv cfg s o raw hi
  | txMsg p raw =>
    show MPInv (recvTxMsg cfg s p raw)
    unfold recvTxMsg
    exact admitTx_inv cfg _ (some p) raw
      (markSeen_inv s p (cfg.hashFn raw) _ hi)
  | seenTx p h =>
    show MPInv (recvSeenTx cfg s p h)
    unfold recvSeenTx
    dsimp only
    split
    · exact markSeen_inv s p h _ hi
    · split
      · exact logExtendNoTx_inv
          { s with seenBy := updFn s.seenBy p (setAdd (s.seenBy p) h),
                   wantedBy := updFn s.wantedBy p (setDel (s.wantedBy p) h),
                   wantedFrom := s.wantedFrom }
          (MPEvent.sendWantTx p h)
          (updFn s.wantedFrom p (setAdd (s.wantedFrom p) h))
          (by intro q x hc; exact MPEvent.noConfusion hc)
          (markSeen_inv s p h s.wantedFrom hi)
      · exact markSeen_inv s p h _ hi
  | wantTx p h =>
    show MPInv (recvWantTx cfg s p h)
    unfold recvWantTx
    split
    · exact logExtendNoTx_inv s (MPEvent.sendNotAvailable p h) _
        (by intro q x hc; exact MPEvent.noConfusion hc) hi
    · split
      · exact hi
      · rename_i hstore hseen
        obtain ⟨h1, h2, h3⟩ := hi
        have hst : storeHas s.store h = true := by
          simpa using hstore
        refine ⟨h1, h2, ?_⟩
        intro q x hx
        try dsimp only at hx ⊢
        by_cases hq : q = p
        · subst hq
          simp [updFn] at hx
          rw [setAdd_mem] at hx
          rcases hx with hin | hxh
          · exact h3 q x hin
          · rw [hxh]
            exact ⟨hseen, hst⟩
        · simp [updFn, hq] at hx
          exact h3 q x hx
  | deliver p h =>
    show MPInv (deliverWanted cfg s p h)
    unfold deliverWanted
    split
    · rename_i hcond
      obtain ⟨h1, h2, h3⟩ := hi
      have hns : h ∉ s.seenBy p := (h3 p h hcond.1).1
      refine ⟨?_, ?_, ?_⟩
      · intro q x
        try dsimp only
        rw [countTx_append]
        by_cases hqx : q = p ∧ x = h
        · obtain ⟨hq, hx⟩ := hqx
          subst hq
          subst hx
          have h0 : countTx q x s.log = 0 := by
            by_contra hc
            exact hns (h2 q x (Nat.one_le_iff_ne_zero.mpr hc))
          simp [countTx, h0]
        · have hne : ¬ (MPEvent.sendTx p h = MPEvent.sendTx q x) := by
            intro hc
            injection hc with a b
            exact hqx ⟨a.symm, b.symm⟩
          simp [countTx, hne]
          exact h1 q x
      · intro q x hx
        try dsimp only at hx ⊢
        rw [countTx_append] at hx
        by_cases hq : q = p
        · subst hq
          simp [updFn]
          rw [setAdd_mem]
          by_cases hx2 : x = h
          · exact Or.inr hx2
          · have hne : ¬ (MPEvent.sendTx q h = MPEvent.sendTx q x) := by
              intro hc
              injection hc with a b
              exact hx2 b.symm
            simp [countTx, hne] at hx
            exact Or.inl (h2 q x hx)
        · simp [updFn, hq]
          have hne : ¬ (MPEvent.sendTx p h = MPEvent.sendTx q x) := by
            intro hc
            injection hc with a b
            exact hq a.symm
          simp [countTx, hne] at hx
          exact h2 q x hx
      · intro q x hx
        try dsimp only at hx ⊢
        by_cases hq : q = p
        · subst hq
          simp [updFn] at hx ⊢
          rw [setDel_mem] at hx
          have h3x := h3 q x hx.1
          constructor
          · rw [setAdd_mem]
            rintro (hin | hxh)
            · exact h3x.1 hin
            · exact hx.2 hxh
          · exact h3x.2
        · simp [updFn, hq] at hx ⊢
          exact h3 q x hx
    · exact hi
  | remove h =>
    obtain ⟨h1, h2, h3⟩ := hi
    refine ⟨?_, ?_, ?_⟩
    · intro q x
      exact h1 q x
    · intro q x hx
      exact h2 q x hx
    · intro q x hx
      have hx2 : x ∈ setDel (s.wantedBy q) h := hx
      rw [setDel_mem] at hx2
      have h3x := h3 q x hx2.1
      exact ⟨h3x.1, removeTx_storeHas_mono cfg s h x h3x.2 hx2.2⟩

theorem mpInit_inv : MPInv mpInit := by
  refine ⟨?_, ?_, ?_⟩
  · intro p h
    simp [mpInit, countTx]
  · intro p h hx
    simp [mpInit, countTx] at hx
  · intro q x hx
    simp [mpInit] at hx

theorem foldl_inv (cfg : MPConfig) :
    ∀ (cmds : List MPCmd) (s : MPState), MPInv s →
      MPInv (cmds.foldl (mpStep cfg) s) := by
  intro cmds
  induction cmds with
  | nil => intro s hi; exact hi
  | cons c rest ih =>
    intro s hi
    exact ih _ (mpStep_inv cfg s c hi)

/-- C2: in the modelled dissemination engine, for every configuration,
every command trace, every peer and every hash, the body message
`Tx(hash, body)` is sent to that peer at most once: the event-log count
never exceeds 1. -/
theorem no_double_delivery (cfg : MPConfig) (cmds : List MPCmd) (p h : Nat) :
    countTx p h (mpRun cfg cmds).log ≤ 1 :=
  (foldl_inv cfg cmds mpInit mpInit_inv).1 p h

theorem admitTx_absent (cfg : MPConfig) (s : MPState) (o : Option Nat)
    (raw : List Nat) (h : Nat)
    (habs : storeHas s.store h = false) (hne : cfg.hashFn raw ≠ h) :
    storeHas (admitTx cfg s o raw).2.store h = false := by
  unfold admitTx
  dsimp only
  split
  · exact habs
  · split
    · exact habs
    · split
      · rename_i s1 hval
        have hm := validateTx_misc cfg s (cfg.hashFn raw) raw
        rw [hval] at hm
        dsimp only at hm
        have hsd := (dissem_misc cfg (cfg.hashFn raw) o cfg.peers
          { s1 with store := s1.store ++ [(cfg.hashFn raw, raw)] }).1
        rw [hsd]
        dsimp only
        rw [storeHas_append, hm.1, habs]
        simp [storeHas, hne]
      · rename_i s1 hval
        have hm := validateTx_misc cfg s (cfg.hashFn raw) raw
        rw [hval] at hm
        dsimp only at hm
        rw [hm.1]
        exact habs

theorem mpStep_absent (cfg : MPConfig) (s : MPState) (c : MPCmd) (h : Nat)
    (habs : storeHas s.store h = false)
    (hni : ¬ introducesHash cfg h c) :
    storeHas (mpStep cfg s c).store h = false := by
  cases c with
  | submit o raw =>
    exact admitTx_absent cfg s o raw h habs
      (by simpa [introducesHash] using hni)
  | txMsg p raw =>
    show storeHas (recvTxMsg cfg s p raw).store h = false
    unfold recvTxMsg
    dsimp only
    exact admitTx_absent cfg _ (some p) raw h habs
      (by simpa [introducesHash] using hni)
  | seenTx p h2 =>
    show storeHas (recvSeenTx cfg s p h2).store h = false
    unfold recvSeenTx
    dsimp only
    split
    · exact habs
    · split
      · exact habs
      · exact habs
  | wantTx p h2 =>
    show storeHas (recvWantTx cfg s p h2).store h = false
    unfold recvWantTx
    split
    · exact habs
    · split
      · exact habs
      · exact habs
  | deliver p h2 =>
    show storeHas (deliverWanted cfg s p h2).store h = false
    unfold deliverWanted
    split
    · exact habs
    · exact habs
  | remove h2 =>
    show storeHas (removeTx cfg s h2).store h = false
    rcases Bool.eq_false_or_eq_true (storeHas (removeTx cfg s h2).store h)
      with ht | hf
    · exact absurd (removeTx_storeHas_le cfg s h2 h ht)
        (by rw [habs]; simp)
    · exact hf

theorem foldl_absent (cfg : MPConfig) (h : Nat) :
    ∀ (cmds : List MPCmd) (s : MPState),
      storeHas s.store h = false →
      (∀ c ∈ cmds, ¬ introducesHash cfg h c) →
      storeHas (cmds.foldl (mpStep cfg) s).store h = false := by
  intro cmds
  induction cmds with
  | nil => intro s habs _; exact habs
  | cons c rest ih =>
    intro s habs hni
    exact ih _ (mpStep_absent cfg s c h habs (hni c (List.mem_cons_self c rest)))
      (fun c2 hc2 => hni c2 (List.mem_cons_of_mem c hc2))

theorem admitTx_present (cfg : MPConfig) (s : MPState) (o : Option Nat)
    (raw : List Nat)
    (hhas : storeHas s.store (cfg.hashFn raw) = true) :
    admitTx cfg s o raw = (AdmitOutcome.alreadyPresent, s) := by
  unfold admitTx
  simp [hhas]

/-- C5 counterexample: the hash-1 transaction is admitted, removed, and
admitted again by the modelled engine; a `WantTx(1)` arriving after the
removal is then answered with the body (`Tx`, via a queued delivery) and no
`NotAvailable` is ever emitted, so the claim that every `WantTx(h)`
subsequent to `Remove(h)` is answered `NotAvailable` fails on this
trace. -/
theorem remove_wanttx_counterexample :
    countNA 0 1 (mpRun exCfg
      [MPCmd.submit none [7], MPCmd.remove 1, MPCmd.submit none [7],
       MPCmd.wantTx 0 1, MPCmd.deliver 0 1]).log = 0 ∧
    countTx 0 1 (mpRun exCfg
      [MPCmd.submit none [7], MPCmd.remove 1, MPCmd.submit none [7],
       MPCmd.wantTx 0 1, MPCmd.deliver 0 1]).log = 1 := by
  constructor
  · rfl
  · rfl

/-- C5 (amended): after `Remove(h)` returns, no Peer Reconciliation State
of any connected peer retains `h` in `wantedByPeer` or `wantedFromPeer`;
and every subsequent `WantTx(h)` received from any peer before `h` enters
the pool again is answered with `NotAvailable`. -/
theorem remove_clears_state (cfg : MPConfig) (cmds1 cmds2 : List MPCmd)
    (h p q : Nat)
    (hni : ∀ c ∈ cmds2, ¬ introducesHash cfg h c) :
    (h ∉ (mpRun cfg (cmds1 ++ [MPCmd.remove h])).wantedBy p ∧
     h ∉ (mpRun cfg (cmds1 ++ [MPCmd.remove h])).wantedFrom p) ∧
    (mpStep cfg (mpRun cfg (cmds1 ++ MPCmd.remove h :: cmds2))
        (MPCmd.wantTx q h)).log =
      (mpRun cfg (cmds1 ++ MPCmd.remove h :: cmds2)).log ++
        [MPEvent.sendNotAvailable q h] := by
  have hsplit : mpRun cfg (cmds1 ++ MPCmd.remove h :: cmds2) =
      cmds2.foldl (mpStep cfg)
        (mpStep cfg (mpRun cfg cmds1) (MPCmd.remove h)) := by
    unfold mpRun
    rw [List.foldl_append]
    rfl
  have habs : storeHas
      (mpRun cfg (cmds1 ++ MPCmd.remove h :: cmds2)).store h = false := by
    rw [hsplit]
    exact foldl_absent cfg h cmds2 _
      (removeTx_storeHas_self cfg (mpRun cfg cmds1) h) hni
  constructor
  · have h2 : mpRun cfg (cmds1 ++ [MPCmd.remove h]) =
        mpStep cfg (mpRun cfg cmds1) (MPCmd.remove h) := by
      unfold mpRun
      rw [List.foldl_append]
      rfl
    rw [h2]
    exact ⟨setDel_not_self _ _, setDel_not_self _ _⟩
  · show (recvWantTx cfg (mpRun cfg (cmds1 ++ MPCmd.remove h :: cmds2)) q h).log =
      (mpRun cfg (cmds1 ++ MPCmd.remove h :: cmds2)).log ++
        [MPEvent.sendNotAvailable q h]
    simp [recvWantTx, habs]

/-- C5 witness: the amended theorem applied to a one-command prefix and an
empty suffix. -/
theorem remove_clears_state_witness :
    ((1 ∉ (mpRun exCfg ([MPCmd.submit none [7]] ++ [MPCmd.remove 1])).wantedBy 0 ∧
      1 ∉ (mpRun exCfg ([MPCmd.submit none [7]] ++ [MPCmd.remove 1])).wantedFrom 0) ∧
     (mpStep exCfg (mpRun exCfg ([MPCmd.submit none [7]] ++ MPCmd.remove 1 :: []))
        (MPCmd.wantTx 0 1)).log =
       (mpRun exCfg ([MPCmd.submit none [7]] ++ MPCmd.remove 1 :: [])).log ++
         [MPEvent.sendNotAvailable 0 1]) :=
  remove_clears_state exCfg [MPCmd.submit none [7]] [] 1 0 0 (by simp)

/-- C6: admitting a transaction and then admitting the same raw bytes again
returns `Added` then `AlreadyPresent`, and the underlying application
validation runs exactly once across both calls, provided the hash is not
already pooled or memoized, the application accepts it, and the pool has
room. -/
theorem idempotent_admission (cfg : MPConfig) (s : MPState) (raw : List Nat)
    (hns : storeHas s.store (cfg.hashFn raw) = false)
    (hnc : cacheLookup s.cache (cfg.hashFn raw) = none)
    (hv : cfg.appValid raw = true)
    (hcap : s.store.length < cfg.capacity) :
    (admitTx cfg s none raw).1 = AdmitOutcome.added ∧
    (admitTx cfg (admitTx cfg s none raw).2 none raw).1 =
      AdmitOutcome.alreadyPresent ∧
    (admitTx cfg (admitTx cfg s none raw).2 none raw).2.valCount =
      s.valCount + 1 := by
  have hval : validateTx cfg s (cfg.hashFn raw) raw =
      (true, { s with cache := (cfg.hashFn raw, true) :: s.cache,
                      valCount := s.valCount + 1 }) := by
    unfold validateTx
    rw [hnc, hv]
  have h1 : admitTx cfg s none raw =
      (AdmitOutcome.added,
       dissem cfg (cfg.hashFn raw) none cfg.peers
         { s with cache := (cfg.hashFn raw, true) :: s.cache,
                  valCount := s.valCount + 1,
                  store := s.store ++ [(cfg.hashFn raw, raw)] }) := by
    unfold admitTx
    simp [hns, Nat.not_le.mpr hcap, hval]
  have hfinal_store : (admitTx cfg s none raw).2.store =
      s.store ++ [(cfg.hashFn raw, raw)] := by
    rw [h1]
    exact (dissem_misc cfg (cfg.hashFn raw) none cfg.peers _).1
  have hfinal_val : (admitTx cfg s none raw).2.valCount =
      s.valCount + 1 := by
    rw [h1]
    exact (dissem_misc cfg (cfg.hashFn raw) none cfg.peers _).2.2.1
  have hhas : storeHas (admitTx cfg s none raw).2.store
      (cfg.hashFn raw) = true := by
    rw [hfinal_store, storeHas_append]
    simp [storeHas]
  refine ⟨by rw [h1], ?_, ?_⟩
  · rw [admitTx_present cfg _ none raw hhas]
  · rw [admitTx_present cfg _ none raw hhas]
    exact hfinal_val

/-- C6 witness: the theorem applied to the empty initial state with a
concrete transaction. -/
theorem idempotent_admission_witness :
    (admitTx exCfg mpInit none [7]).1 = AdmitOutcome.added ∧
    (admitTx exCfg (admitTx exCfg mpInit none [7]).2 none [7]).1 =
      AdmitOutcome.alreadyPresent ∧
    (admitTx exCfg (admitTx exCfg mpInit none [7]).2 none [7]).2.valCount =
      mpInit.valCount + 1 :=
  idempotent_admission exCfg mpInit [7] rfl rfl rfl (by decide)
